import Mathlib

/-!
Verification development for abutils/utils/inputs.py: a uniform input
layer over FASTA files, line-delimited JSON files and MongoDB
collections.  Pure functions of the source are embedded as Lean
functions; the effects the specification talks about (file reads,
database connections, the memoisation cache of the eager accessor) are
threaded through explicit state records.  External capabilities
(directory listing, FASTA parsing, file contents, database queries) are
supplied through an `Env` record, so that one instance stands for one
stable underlying source.
-/

namespace AbutilsInputs

/-! ## Python string primitives used by inputs.py -/

/-- Whitespace characters removed by Python str.strip() with no
argument (the ASCII ones; the source never feeds other whitespace). -/
def isPySpace (c : Char) : Bool :=
  c = ' ' || c = '\t' || c = '\n' || c = '\r' || c = '\x0b' || c = '\x0c'

/-- Python str.strip(): remove leading and trailing whitespace. -/
def pyStrip (s : String) : String :=
  String.mk (((s.toList.dropWhile isPySpace).reverse.dropWhile isPySpace).reverse)

/-- Python str.lstrip(c) for a one-character set: remove every leading
occurrence of the character. -/
def pyLStripChar (c : Char) (s : String) : String :=
  String.mk (s.toList.dropWhile (fun x => x = c))

/-- Python str.rstrip(c) for a one-character set: remove every trailing
occurrence of the character. -/
def pyRStripChar (c : Char) (s : String) : String :=
  String.mk ((s.toList.reverse.dropWhile (fun x => x = c)).reverse)

/-! ## JSON model

Model of the external JSON parser (Python stdlib json.loads) restricted
to flat objects with string keys and string values, which is the shape
the line-delimited records of this module carry in the claims.  As in
the stdlib, an empty (or otherwise non-object) input is a parse error
with message starting like CPython, namely Expecting value. -/

/-- A parsed JSON record: an ordered list of string fields. -/
def Json : Type := List (String × String)

instance : DecidableEq Json := by
  unfold Json
  infer_instance

/-- Parse the body of a JSON string literal after the opening quote,
returning the characters and the remainder after the closing quote. -/
def parseStrBody : List Char → Option (List Char × List Char)
  | [] => none
  | '"' :: rest => some ([], rest)
  | c :: rest =>
    match parseStrBody rest with
    | some (s, r) => some (c :: s, r)
    | none => none

/-- Skip JSON whitespace. -/
def skipWs (cs : List Char) : List Char :=
  cs.dropWhile isPySpace

/-- Parse one key-value pair of a flat object. -/
def parsePairRec (cs : List Char) : Option ((String × String) × List Char) :=
  match skipWs cs with
  | '"' :: r0 =>
    match parseStrBody r0 with
    | some (k, r1) =>
      match skipWs r1 with
      | ':' :: r2 =>
        match skipWs r2 with
        | '"' :: r3 =>
          match parseStrBody r3 with
          | some (v, r4) => some ((String.mk k, String.mk v), r4)
          | none => none
        | _ => none
      | _ => none
    | none => none
  | _ => none

/-- Parse the pairs of a flat object after the opening brace, up to and
including the closing brace.  Fuel bounds the recursion. -/
def parsePairsAux : Nat → List Char → Option (Json × List Char)
  | 0, _ => none
  | fuel + 1, cs =>
    match parsePairRec cs with
    | none => none
    | some (kv, rest) =>
      match skipWs rest with
      | '\x7d' :: r => some ([kv], r)
      | ',' :: r =>
        match parsePairsAux fuel r with
        | some (kvs, r2) => some (kv :: kvs, r2)
        | none => none
      | _ => none

/-- json.loads restricted to flat string-valued objects; every other
input (in particular the empty string) is a parse error. -/
def jsonLoads (s : String) : Except String Json :=
  match skipWs s.toList with
  | '\x7b' :: rest =>
    match skipWs rest with
    | '\x7d' :: r =>
      if (skipWs r).isEmpty then Except.ok [] else Except.error "Extra data"
    | _ =>
      match parsePairsAux (rest.length + 1) rest with
      | some (kvs, r) =>
        if (skipWs r).isEmpty then Except.ok kvs else Except.error "Extra data"
      | none => Except.error "Malformed object"
  | _ => Except.error "Expecting value"

/-! ## Records and the external environment -/

/-- The opaque SequenceRecord target type: constructed from residues
plus an identifier (FASTA path) or from a parsed field mapping
(JSON and MongoDB paths). -/
inductive Sequence where
  | fromFasta (seq : String) (id : String)
  | fromJson (j : Json)
deriving DecidableEq

/-- The identifier field of a record: the explicit id in the FASTA
case, the id field of the mapping otherwise. -/
def Sequence.idOf : Sequence → Option String
  | .fromFasta _ i => some i
  | .fromJson j => (j.find? (fun kv => kv.1 = "id")).map (fun kv => kv.2)

/-- External capabilities consumed by inputs.py, fixed for the lifetime
of an instance (a stable underlying source): the filesystem shape, the
external file lister, file contents, the FASTA parsing capability and
the database query capability. -/
structure Env where
  isdir : String → Bool
  list_files : String → String → List String
  file_lines : String → List String
  parse_fasta : String → List (String × String)
  get_collections : String → List String
  find : String → String → Option Json → Option Json → List Json

/-- The input descriptor of a file-based variant: a single path string
or an explicit list of paths (the non-string branch of the source). -/
inductive FileInput where
  | path (p : String)
  | paths (ps : List String)
deriving DecidableEq

/-! ## FASTAInput -/

/-- Representation of FASTA input data (class FASTAInput). -/
structure FASTAInput where
  input_file : FileInput
deriving DecidableEq

/-- FASTAInput.data_type. -/
def FASTAInput.data_type (_ : FASTAInput) : String := "fasta"

/-- FASTAInput.files: a string descriptor naming a directory expands
through the external lister with extension json (as written in the
source); any other string becomes a one-element list; a non-string
descriptor is returned unchanged. -/
def FASTAInput.files (env : Env) (inst : FASTAInput) : List String :=
  match inst.input_file with
  | .path p => if env.isdir p then env.list_files p "json" else [p]
  | .paths ps => ps

/-- Per-instance mutable state of a FASTAInput: the number of file
opens performed so far and the storage cell of the eager accessor. -/
structure FASTAState where
  reads : Nat
  cache : Option (List Sequence)
deriving DecidableEq

/-- The body of FASTAInput.as_list: loop over the resolved files,
parse each and append one record per parsed sequence, counting one
read per opened file. -/
def FASTAInput.filesLoop (env : Env) : List String → List Sequence → Nat → (List Sequence × Nat)
  | [], acc, r => (acc, r)
  | f :: fs, acc, r =>
    FASTAInput.filesLoop env fs
      (acc ++ (env.parse_fasta f).map (fun p => Sequence.fromFasta p.2 p.1)) (r + 1)

/-- One computation of the eager FASTA accessor from scratch. -/
def FASTAInput.as_list_compute (env : Env) (inst : FASTAInput) (r : Nat) :
    List Sequence × Nat :=
  FASTAInput.filesLoop env (inst.files env) [] r

/-- `Modelled from the spec:` the decorator lazy_property applied to
as_list is not defined under src/ (inputs.py references it but never
imports it); per the spec, the first call performs the full read and
stores the result, and every later call returns the stored result
without touching the source.  FASTAInput.as_list under that contract. -/
def FASTAInput.as_list (env : Env) (inst : FASTAInput) (st : FASTAState) :
    List Sequence × FASTAState :=
  match st.cache with
  | some v => (v, st)
  | none =>
    let c := FASTAInput.as_list_compute env inst st.reads
    (c.1, ⟨c.2, some c.1⟩)

/-- One full consumption of FASTAInput.as_generator: the generator
re-opens every resolved file and yields one record per parsed
sequence; it stores nothing in the instance. -/
def FASTAInput.genFiles (env : Env) : List String → Nat → (List Sequence × Nat)
  | [], r => ([], r)
  | f :: fs, r =>
    let tl := FASTAInput.genFiles env fs (r + 1)
    ((env.parse_fasta f).map (fun p => Sequence.fromFasta p.2 p.1) ++ tl.1, tl.2)

/-- FASTAInput.as_generator, consumed to the end. -/
def FASTAInput.as_generator (env : Env) (inst : FASTAInput) (st : FASTAState) :
    List Sequence × FASTAState :=
  let g := FASTAInput.genFiles env (inst.files env) st.reads
  (g.1, ⟨g.2, st.cache⟩)

/-! ## JSONInput -/

/-- Representation of JSON input data (class JSONInput). -/
structure JSONInput where
  input_file : FileInput
deriving DecidableEq

/-- JSONInput.data_type. -/
def JSONInput.data_type (_ : JSONInput) : String := "json"

/-- JSONInput.files: identical resolution to FASTAInput.files. -/
def JSONInput.files (env : Env) (inst : JSONInput) : List String :=
  match inst.input_file with
  | .path p => if env.isdir p then env.list_files p "json" else [p]
  | .paths ps => ps

/-- The per-line transformation of JSONInput before parsing:
line.strip().lstrip(bracket).rstrip(bracket).rstrip(comma) fed to
json.loads. -/
def jsonLineParse (line : String) : Except String Json :=
  jsonLoads (pyRStripChar ',' (pyRStripChar ']' (pyLStripChar ']' (pyStrip line))))

/-- Per-instance mutable state of a JSONInput. -/
structure JSONState where
  reads : Nat
  cache : Option (List Sequence)
deriving DecidableEq

/-- The inner loop of JSONInput.as_list over the lines of one file:
each line is trimmed and parsed, a parse failure propagates. -/
def JSONInput.linesLoop : List String → List Sequence → Except String (List Sequence)
  | [], acc => Except.ok acc
  | line :: rest, acc =>
    match jsonLineParse line with
    | Except.error e => Except.error e
    | Except.ok j => JSONInput.linesLoop rest (acc ++ [Sequence.fromJson j])

/-- The outer loop of JSONInput.as_list over the resolved files. -/
def JSONInput.filesLoop (env : Env) : List String → List Sequence → Nat →
    (Except String (List Sequence) × Nat)
  | [], acc, r => (Except.ok acc, r)
  | f :: fs, acc, r =>
    match JSONInput.linesLoop (env.file_lines f) acc with
    | Except.error e => (Except.error e, r + 1)
    | Except.ok acc2 => JSONInput.filesLoop env fs acc2 (r + 1)

/-- One computation of the eager JSON accessor from scratch. -/
def JSONInput.as_list_compute (env : Env) (inst : JSONInput) (r : Nat) :
    Except String (List Sequence) × Nat :=
  JSONInput.filesLoop env (inst.files env) [] r

/-- `Modelled from the spec:` lazy_property as in FASTAInput.as_list;
a raised parse error propagates before the store is written, so only a
successful result is memoised. -/
def JSONInput.as_list (env : Env) (inst : JSONInput) (st : JSONState) :
    Except String (List Sequence) × JSONState :=
  match st.cache with
  | some v => (Except.ok v, st)
  | none =>
    let c := JSONInput.as_list_compute env inst st.reads
    match c.1 with
    | Except.ok v => (Except.ok v, ⟨c.2, some v⟩)
    | Except.error e => (Except.error e, ⟨c.2, none⟩)

/-- One full consumption of the generator body of JSONInput over the
lines of one file. -/
def JSONInput.genLines : List String → Except String (List Sequence)
  | [] => Except.ok []
  | line :: rest =>
    match jsonLineParse line with
    | Except.error e => Except.error e
    | Except.ok j =>
      match JSONInput.genLines rest with
      | Except.error e => Except.error e
      | Except.ok tl => Except.ok (Sequence.fromJson j :: tl)

/-- One full consumption of JSONInput.as_generator over the files. -/
def JSONInput.genFiles (env : Env) : List String → Nat →
    (Except String (List Sequence) × Nat)
  | [], r => (Except.ok [], r)
  | f :: fs, r =>
    match JSONInput.genLines (env.file_lines f) with
    | Except.error e => (Except.error e, r + 1)
    | Except.ok here =>
      let tl := JSONInput.genFiles env fs (r + 1)
      match tl.1 with
      | Except.error e => (Except.error e, tl.2)
      | Except.ok rest => (Except.ok (here ++ rest), tl.2)

/-- JSONInput.as_generator, consumed to the end. -/
def JSONInput.as_generator (env : Env) (inst : JSONInput) (st : JSONState) :
    Except String (List Sequence) × JSONState :=
  let g := JSONInput.genFiles env (inst.files env) st.reads
  (g.1, ⟨g.2, st.cache⟩)

/-! ## MongoDBInput -/

/-- The collection specification of a MongoDBInput: a single name
string, an absent (None) specification, or an explicit list. -/
inductive CollInput where
  | name (s : String)
  | absent
  | names (l : List String)
deriving DecidableEq

/-- Representation of MongoDB input data (class MongoDBInput). -/
structure MongoDBInput where
  db_name : String
  raw_collections : CollInput
  ip : String
  port : Nat
  user : Option String
  password : Option String
  query : Option Json
  projection : Option Json
deriving DecidableEq

/-- MongoDBInput.data_type. -/
def MongoDBInput.data_type (_ : MongoDBInput) : String := "mongodb"

/-- Per-instance mutable state of a MongoDBInput: the number of
connections established through mongodb.get_db so far and the storage
cell of the eager accessor. -/
structure MongoState where
  conns : Nat
  cache : Option (List Sequence)
deriving DecidableEq

/-- MongoDBInput.db: every access calls mongodb.get_db with the
configured host, port, user and password, establishing a connection,
and returns the database handle (identified by its name). -/
def MongoDBInput.db (inst : MongoDBInput) (st : MongoState) : String × MongoState :=
  (inst.db_name, ⟨st.conns + 1, st.cache⟩)

/-- MongoDBInput.collections: a string specification becomes a
one-element list, an absent specification is expanded through
mongodb.get_collections on the database handle, an explicit list is
returned unchanged. -/
def MongoDBInput.collections (env : Env) (inst : MongoDBInput) (st : MongoState) :
    List String × MongoState :=
  match inst.raw_collections with
  | .name s => ([s], st)
  | .absent =>
    let d := inst.db st
    (env.get_collections d.1, d.2)
  | .names l => (l, st)

/-- MongoDBInput._process_collections: the same three-way resolution,
applied to an argument instead of the stored specification. -/
def MongoDBInput.process_collections (env : Env) (inst : MongoDBInput)
    (collection : CollInput) (st : MongoState) : List String × MongoState :=
  match collection with
  | .name s => ([s], st)
  | .absent =>
    let d := inst.db st
    (env.get_collections d.1, d.2)
  | .names l => (l, st)

/-- The loop of MongoDBInput.as_list over the resolved collections:
each iteration reads self.db (a fresh connection) and appends one
record per document returned by find. -/
def MongoDBInput.collLoop (env : Env) (inst : MongoDBInput) :
    List String → List Sequence → MongoState → (List Sequence × MongoState)
  | [], acc, st => (acc, st)
  | c :: cs, acc, st =>
    let d := inst.db st
    MongoDBInput.collLoop env inst cs
      (acc ++ (env.find d.1 c inst.query inst.projection).map Sequence.fromJson) d.2

/-- One computation of the eager MongoDB accessor from scratch. -/
def MongoDBInput.as_list_compute (env : Env) (inst : MongoDBInput) (st : MongoState) :
    List Sequence × MongoState :=
  let cl := inst.collections env st
  MongoDBInput.collLoop env inst cl.1 [] cl.2

/-- `Modelled from the spec:` lazy_property as in FASTAInput.as_list.
MongoDBInput.as_list under that contract. -/
def MongoDBInput.as_list (env : Env) (inst : MongoDBInput) (st : MongoState) :
    List Sequence × MongoState :=
  match st.cache with
  | some v => (v, st)
  | none =>
    let c := MongoDBInput.as_list_compute env inst st
    (c.1, ⟨c.2.conns, some c.1⟩)

/-- One full consumption of the generator body of MongoDBInput over
the resolved collections. -/
def MongoDBInput.genColls (env : Env) (inst : MongoDBInput) :
    List String → MongoState → (List Sequence × MongoState)
  | [], st => ([], st)
  | c :: cs, st =>
    let d := inst.db st
    let tl := MongoDBInput.genColls env inst cs d.2
    ((env.find d.1 c inst.query inst.projection).map Sequence.fromJson ++ tl.1, tl.2)

/-- MongoDBInput.as_generator, consumed to the end; it stores nothing
in the instance. -/
def MongoDBInput.as_generator (env : Env) (inst : MongoDBInput) (st : MongoState) :
    List Sequence × MongoState :=
  let cl := inst.collections env st
  let g := MongoDBInput.genColls env inst cl.1 cl.2
  (g.1, ⟨g.2.conns, st.cache⟩)

/-! ## The factory entry point -/

/-- The union of the three variants, as the factory is documented to
return one of them. -/
inductive InputSource where
  | fasta (i : FASTAInput)
  | json (i : JSONInput)
  | mongodb (i : MongoDBInput)
deriving DecidableEq

/-- read_input as written in the source: its body consists of the
docstring only, so it performs no dispatch, constructs nothing, raises
nothing, and returns None for every combination of arguments. -/
def read_input (_input : FileInput) (_data_type : String)
    (_collection : CollInput) (_mongo_ip : String) (_mongo_port : Nat)
    (_mongo_user _mongo_password : Option String)
    (_query _projection : Option Json) : Option InputSource :=
  none

/-! ## Module evaluation model

Import-time name resolution of inputs.py: the module body is a
sequence of imports, top-level references and definitions, evaluated
against an environment of bound names; referencing an unbound name is
a NameError, as in Python. -/

/-- One top-level evaluation step of the module, reduced to the name
binding it introduces or the name it looks up. -/
inductive Stmt where
  | imp (ns : List String)
  | refN (n : String)
  | defN (n : String)

/-- Evaluate the statements in order: an unbound reference stops the
evaluation with a NameError, so nothing after it is ever bound. -/
def evalStmts : List Stmt → List String → Except String (List String)
  | [], env => Except.ok env
  | Stmt.imp ns :: rest, env => evalStmts rest (env ++ ns)
  | Stmt.refN n :: rest, env =>
    if n ∈ env then evalStmts rest env
    else Except.error ("NameError: name " ++ n ++ " is not defined")
  | Stmt.defN n :: rest, env => evalStmts rest (env ++ [n])

/-- The names bound before the module body runs: the builtins the
module body uses. -/
def builtins : List String := ["property", "str", "type", "open", "len"]

/-- The top level of inputs.py in source order: the imports (abc, json,
os, Bio.SeqIO, mongodb, pipeline.list_files, core.sequence.Sequence),
the version check referencing sys, the STR_TYPES binding, read_input,
and the four class definitions with the names their bodies and
decorators reference (each concrete class decorates as_list with
lazy_property). -/
def moduleStmts : List Stmt := [
  Stmt.imp ["ABCMeta", "abstractmethod"],
  Stmt.imp ["json"],
  Stmt.imp ["os"],
  Stmt.imp ["SeqIO"],
  Stmt.imp ["mongodb"],
  Stmt.imp ["list_files"],
  Stmt.imp ["Sequence"],
  Stmt.refN "sys",
  Stmt.defN "STR_TYPES",
  Stmt.defN "read_input",
  Stmt.refN "ABCMeta", Stmt.refN "property", Stmt.refN "abstractmethod",
  Stmt.defN "BaseInput",
  Stmt.refN "BaseInput", Stmt.refN "property", Stmt.refN "lazy_property",
  Stmt.defN "FASTAInput",
  Stmt.refN "BaseInput", Stmt.refN "property", Stmt.refN "lazy_property",
  Stmt.defN "JSONInput",
  Stmt.refN "BaseInput", Stmt.refN "property", Stmt.refN "lazy_property",
  Stmt.defN "MongoDBInput"]

/-- Importing inputs.py: evaluate its top level against the builtins.
This is the evaluation phase alone, reached only if the module text
compiles. -/
def moduleEval : Except String (List String) :=
  evalStmts moduleStmts builtins

/-- A decorator site of the module text: a decorator list followed by
the def it decorates, or followed by a bare expression statement,
which Python's grammar does not allow after decorators. -/
inductive DecSite where
  | onDef (decs : List String) (n : String)
  | onExpr (decs : List String)

/-- The decorator sites of inputs.py in source order.  The first site
is BaseInput.data_type, where a stray string literal stands between
the abstractmethod decorator and the def (line 82); every other site
decorates its def directly, and each concrete class decorates as_list
with lazy_property. -/
def decSites : List DecSite := [
  DecSite.onExpr ["property", "abstractmethod"],
  DecSite.onDef ["property", "abstractmethod"] "as_list",
  DecSite.onDef ["property", "abstractmethod"] "as_generator",
  DecSite.onDef ["property"] "data_type",
  DecSite.onDef ["property"] "files",
  DecSite.onDef ["lazy_property"] "as_list",
  DecSite.onDef ["property"] "as_generator",
  DecSite.onDef ["property"] "data_type",
  DecSite.onDef ["property"] "files",
  DecSite.onDef ["lazy_property"] "as_list",
  DecSite.onDef ["property"] "as_generator",
  DecSite.onDef ["property"] "data_type",
  DecSite.onDef ["property"] "db",
  DecSite.onDef ["property"] "collections",
  DecSite.onDef ["lazy_property"] "as_list",
  DecSite.onDef ["property"] "as_generator"]

/-- The compile phase of an import: the whole module text is parsed
before anything runs, and a decorator list followed by an expression
statement is a SyntaxError. -/
def compileSites : List DecSite → Except String Unit
  | [] => Except.ok ()
  | DecSite.onDef _ _ :: rest => compileSites rest
  | DecSite.onExpr _ :: _ => Except.error "SyntaxError: invalid syntax"

/-- Importing inputs.py: compile the module text, then evaluate its
top level. -/
def moduleImport : Except String (List String) :=
  match compileSites decSites with
  | Except.error e => Except.error e
  | Except.ok _ => moduleEval

/-! ## Concrete environments for evaluation -/

/-- A one-file source: the descriptor is a plain file path, the file
holds one comma-terminated JSON line; FASTA parsing yields two
records; the database has one collection whose query returns one
document per collection name. -/
def envFile : Env :=
  ⟨fun _ => false,
   fun _ _ => [],
   fun _ => ["\x7b\"id\":\"x\"\x7d,"],
   fun _ => [("seq1", "ACGT"), ("seq2", "TTTT")],
   fun _ => ["c1"],
   fun _ c _ _ => [[("coll", c)]]⟩

/-- A directory source: every path is a directory and listing it with
the json extension yields one file. -/
def envDir : Env :=
  ⟨fun _ => true,
   fun _ _ => ["d/a.json"],
   fun _ => ["\x7b\"id\":\"x\"\x7d"],
   fun _ => [("seq1", "ACGT")],
   fun _ => ["c1"],
   fun _ _ _ _ => []⟩

/-- A directory source with zero matching files. -/
def envEmptyDir : Env :=
  ⟨fun _ => true,
   fun _ _ => [],
   fun _ => [],
   fun _ => [],
   fun _ => [],
   fun _ _ _ _ => []⟩

/-- A one-file JSON source whose single line is a bare closing
bracket, which the trim empties. -/
def envBracketLine : Env :=
  ⟨fun _ => false,
   fun _ _ => [],
   fun _ => ["]"],
   fun _ => [],
   fun _ => [],
   fun _ _ _ _ => []⟩

/-- A JSONInput over a single file. -/
def jsonOneFile : JSONInput := ⟨FileInput.path "recs.json"⟩

/-- A FASTAInput over a single file. -/
def fastaOneFile : FASTAInput := ⟨FileInput.path "seqs.fasta"⟩

/-- A MongoDBInput with an explicit two-collection list. -/
def mongoTwoColls : MongoDBInput :=
  ⟨"mydb", CollInput.names ["A", "B"], "localhost", 27017, none, none, none, none⟩

/-- A MongoDBInput with a single collection name. -/
def mongoOneColl : MongoDBInput :=
  ⟨"mydb", CollInput.name "c1", "localhost", 27017, none, none, none, none⟩

/-! ## Helper lemmas -/

/-- The accumulator loop of the eager FASTA accessor is the
concatenation the generator produces, with the same read count. -/
lemma fasta_filesLoop_eq (env : Env) :
    ∀ (fs : List String) (acc : List Sequence) (r : Nat),
      FASTAInput.filesLoop env fs acc r =
        (acc ++ (FASTAInput.genFiles env fs r).1, (FASTAInput.genFiles env fs r).2) := by
  intro fs
  induction fs with
  | nil => intro acc r; simp [FASTAInput.filesLoop, FASTAInput.genFiles]
  | cons f fs ih =>
    intro acc r
    simp [FASTAInput.filesLoop, FASTAInput.genFiles, ih]

/-- The FASTA generator's read count: one read per file. -/
lemma fasta_genFiles_reads (env : Env) :
    ∀ (fs : List String) (r : Nat),
      (FASTAInput.genFiles env fs r).2 = r + fs.length := by
  intro fs
  induction fs with
  | nil => intro r; simp [FASTAInput.genFiles]
  | cons f fs ih =>
    intro r
    simp [FASTAInput.genFiles, ih]
    omega

/-- The FASTA generator's output does not depend on the read count. -/
lemma fasta_genFiles_fst (env : Env) :
    ∀ (fs : List String) (r1 r2 : Nat),
      (FASTAInput.genFiles env fs r1).1 = (FASTAInput.genFiles env fs r2).1 := by
  intro fs
  induction fs with
  | nil => intro r1 r2; rfl
  | cons f fs ih =>
    intro r1 r2
    simp [FASTAInput.genFiles, ih (r1 + 1) (r2 + 1)]

/-- The accumulator loop over the lines of one JSON file is the
generator's line pass with the accumulator prepended. -/
lemma json_linesLoop_eq :
    ∀ (ls : List String) (acc : List Sequence),
      JSONInput.linesLoop ls acc = (JSONInput.genLines ls).map (fun tl => acc ++ tl) := by
  intro ls
  induction ls with
  | nil => intro acc; simp [JSONInput.linesLoop, JSONInput.genLines, Except.map]
  | cons l ls ih =>
    intro acc
    simp only [JSONInput.linesLoop, JSONInput.genLines]
    cases jsonLineParse l with
    | error e => simp [Except.map]
    | ok j =>
      simp only [ih]
      cases JSONInput.genLines ls with
      | error e => simp [Except.map]
      | ok tl => simp [Except.map]

/-- The accumulator loop of the eager JSON accessor is the generator's
pass with the accumulator prepended, with the same read count. -/
lemma json_filesLoop_eq (env : Env) :
    ∀ (fs : List String) (acc : List Sequence) (r : Nat),
      JSONInput.filesLoop env fs acc r =
        ((JSONInput.genFiles env fs r).1.map (fun tl => acc ++ tl),
         (JSONInput.genFiles env fs r).2) := by
  intro fs
  induction fs with
  | nil => intro acc r; simp [JSONInput.filesLoop, JSONInput.genFiles, Except.map]
  | cons f fs ih =>
    intro acc r
    simp only [JSONInput.filesLoop, JSONInput.genFiles, json_linesLoop_eq]
    cases JSONInput.genLines (env.file_lines f) with
    | error e => simp [Except.map]
    | ok here =>
      simp only [Except.map, ih]
      cases (JSONInput.genFiles env fs (r + 1)).1 with
      | error e => simp [Except.map]
      | ok rest => simp [Except.map]

/-- The JSON generator's output does not depend on the read count. -/
lemma json_genFiles_fst (env : Env) :
    ∀ (fs : List String) (r1 r2 : Nat),
      (JSONInput.genFiles env fs r1).1 = (JSONInput.genFiles env fs r2).1 := by
  intro fs
  induction fs with
  | nil => intro r1 r2; rfl
  | cons f fs ih =>
    intro r1 r2
    simp only [JSONInput.genFiles]
    cases JSONInput.genLines (env.file_lines f) with
    | error e => rfl
    | ok here =>
      simp only [ih (r1 + 1) (r2 + 1)]
      cases (JSONInput.genFiles env fs (r2 + 1)).1 with
      | error e => rfl
      | ok rest => rfl

/-- The accumulator loop of the eager MongoDB accessor is the
concatenation the generator produces, in the same final state. -/
lemma mongo_collLoop_eq (env : Env) (inst : MongoDBInput) :
    ∀ (cs : List String) (acc : List Sequence) (st : MongoState),
      MongoDBInput.collLoop env inst cs acc st =
        (acc ++ (MongoDBInput.genColls env inst cs st).1,
         (MongoDBInput.genColls env inst cs st).2) := by
  intro cs
  induction cs with
  | nil => intro acc st; simp [MongoDBInput.collLoop, MongoDBInput.genColls]
  | cons c cs ih =>
    intro acc st
    simp [MongoDBInput.collLoop, MongoDBInput.genColls, MongoDBInput.db, ih]

/-- The MongoDB generator establishes one connection per collection. -/
lemma mongo_genColls_conns (env : Env) (inst : MongoDBInput) :
    ∀ (cs : List String) (st : MongoState),
      (MongoDBInput.genColls env inst cs st).2.conns = st.conns + cs.length := by
  intro cs
  induction cs with
  | nil => intro st; rfl
  | cons c cs ih =>
    intro st
    simp [MongoDBInput.genColls, MongoDBInput.db, ih]
    omega

/-- The MongoDB generator leaves the eager cache untouched. -/
lemma mongo_genColls_cache (env : Env) (inst : MongoDBInput) :
    ∀ (cs : List String) (st : MongoState),
      (MongoDBInput.genColls env inst cs st).2.cache = st.cache := by
  intro cs
  induction cs with
  | nil => intro st; rfl
  | cons c cs ih =>
    intro st
    simp [MongoDBInput.genColls, MongoDBInput.db, ih]

/-- The MongoDB generator's output does not depend on the state. -/
lemma mongo_genColls_fst (env : Env) (inst : MongoDBInput) :
    ∀ (cs : List String) (st1 st2 : MongoState),
      (MongoDBInput.genColls env inst cs st1).1 =
        (MongoDBInput.genColls env inst cs st2).1 := by
  intro cs
  induction cs with
  | nil => intro st1 st2; rfl
  | cons c cs ih =>
    intro st1 st2
    simp [MongoDBInput.genColls, MongoDBInput.db,
      ih ⟨st1.conns + 1, st1.cache⟩ ⟨st2.conns + 1, st2.cache⟩]

/-- The resolved collection list does not depend on the state. -/
lemma mongo_collections_fst (env : Env) (inst : MongoDBInput) (st1 st2 : MongoState) :
    (MongoDBInput.collections env inst st1).1 =
      (MongoDBInput.collections env inst st2).1 := by
  cases h : inst.raw_collections <;>
    simp [MongoDBInput.collections, MongoDBInput.db, h]

/-! ## Claim theorems -/

/-- C1: the claim says read_input with data_type fasta, json or
mongodb constructs and returns the matching InputSource variant and
raises UnsupportedDataTypeError otherwise.  The function body in the
source is only the docstring, so read_input returns None for every
argument combination — in particular for the documented data types —
constructing nothing and raising nothing, contradicting its own
docstring (Returns an Input class based on the data information
provided). -/
theorem read_input_never_constructs :
    ∀ (inp : FileInput) (dt : String) (c : CollInput) (mip : String) (mp : Nat)
      (mu mpw : Option String) (q pj : Option Json),
      read_input inp dt c mip mp mu mpw q pj = none := by
  intro inp dt c mip mp mu mpw q pj
  rfl

/-- C2 counterexample: the claim says the version check's reference to
the unimported name sys raises a NameError at import time.  Importing
the module does not reach that statement: the whole module text is
compiled first, and the stray string literal standing between the
decorators and def of BaseInput.data_type (line 82) makes compilation
fail with a SyntaxError, so the import error is a SyntaxError, not the
claimed NameError. -/
theorem module_import_syntax_error :
    moduleImport = Except.error "SyntaxError: invalid syntax" := rfl

/-- C2 amended: evaluating the module fails before any public
operation becomes usable — but one layer earlier than claimed:
compiling the module text fails with a SyntaxError at the stray string
literal between the decorators and def of BaseInput.data_type; were
that removed, the top-level version check references sys, a name no
statement binds, and evaluation stops with a NameError before any class
is bound; were sys also bound, the first class body decorated with the
undefined name lazy_property stops evaluation with a NameError before
FASTAInput (or any later variant) is bound.  Consequently no
InputSource variant can be constructed or invoked as written. -/
theorem module_unusable_amended :
    moduleImport = Except.error "SyntaxError: invalid syntax" ∧
    moduleEval = Except.error "NameError: name sys is not defined" ∧
    evalStmts moduleStmts (builtins ++ ["sys"]) =
      Except.error "NameError: name lazy_property is not defined" := by
  exact ⟨rfl, rfl, rfl⟩

/-- C3: (spec-modelled lazy_property) the eager accessor as_list is
memoised: starting from a fresh instance state, the first call
performs the full read (for FASTA, one read per resolved file) and
stores its result, and the second call returns exactly the stored
value with the state unchanged — no further read, query or connection
happens.  For JSON the store is written when the first computation
succeeds. -/
theorem as_list_memoized (env : Env) :
    (∀ (fi : FASTAInput) (r : Nat),
      FASTAInput.as_list env fi ((FASTAInput.as_list env fi ⟨r, none⟩).2) =
        ((FASTAInput.as_list env fi ⟨r, none⟩).1, (FASTAInput.as_list env fi ⟨r, none⟩).2) ∧
      (FASTAInput.as_list env fi ⟨r, none⟩).2.reads = r + (fi.files env).length) ∧
    (∀ (mi : MongoDBInput) (n : Nat),
      MongoDBInput.as_list env mi ((MongoDBInput.as_list env mi ⟨n, none⟩).2) =
        ((MongoDBInput.as_list env mi ⟨n, none⟩).1,
         (MongoDBInput.as_list env mi ⟨n, none⟩).2)) ∧
    (∀ (ji : JSONInput) (r : Nat) (v : List Sequence),
      (JSONInput.as_list env ji ⟨r, none⟩).1 = Except.ok v →
      JSONInput.as_list env ji ((JSONInput.as_list env ji ⟨r, none⟩).2) =
        (Except.ok v, (JSONInput.as_list env ji ⟨r, none⟩).2)) := by
  refine ⟨fun fi r => ⟨rfl, ?_⟩, fun mi n => rfl, fun ji r v h => ?_⟩
  · simp [FASTAInput.as_list, FASTAInput.as_list_compute, fasta_filesLoop_eq,
      fasta_genFiles_reads]
  · simp only [JSONInput.as_list, JSONInput.as_list_compute] at h ⊢
    cases hc : (JSONInput.filesLoop env (ji.files env) [] r).1 with
    | error e => simp [hc] at h
    | ok w =>
      simp [hc] at h
      subst h
      simp [hc]

/-- Witness for C3: on the concrete one-file JSON source, the first
call succeeds with one record and the second call returns it from the
store with the state unchanged. -/
theorem as_list_memoized_witness :
    JSONInput.as_list envFile jsonOneFile
        ((JSONInput.as_list envFile jsonOneFile ⟨0, none⟩).2) =
      (Except.ok [Sequence.fromJson [("id", "x")]],
       (JSONInput.as_list envFile jsonOneFile ⟨0, none⟩).2) :=
  (as_list_memoized envFile).2.2 jsonOneFile 0 [Sequence.fromJson [("id", "x")]] rfl

/-- C4 counterexample: the claim says a line that becomes empty after
the trim is skipped and contributes no record and is not an error.  On
a one-file source whose single line is a bare closing bracket, the
eager accessor does not return an empty record list: the emptied line
is handed to the JSON parser, which fails with Expecting value, so the
read errors after opening one file. -/
theorem json_bracket_line_errors :
    JSONInput.as_list_compute envBracketLine jsonOneFile 0 =
      (Except.error "Expecting value", 1) := rfl

/-- C4 amended: every input line is trimmed of surrounding whitespace,
of leading/trailing bracket characters and of trailing commas before
JSON parsing; a line that becomes empty after this trim is handed to
the parser and fails with a parse error (it is not skipped); and a
comma-terminated object line with id x yields exactly one record
whose id field equals x. -/
theorem json_line_trim_amended :
    (∀ (line : String),
      jsonLineParse line =
        jsonLoads (pyRStripChar ',' (pyRStripChar ']' (pyLStripChar ']' (pyStrip line))))) ∧
    (∀ (line : String),
      pyRStripChar ',' (pyRStripChar ']' (pyLStripChar ']' (pyStrip line))) = "" →
      jsonLineParse line = Except.error "Expecting value") ∧
    jsonLineParse "\x7b\"id\":\"x\"\x7d," = Except.ok [("id", "x")] ∧
    (Sequence.fromJson [("id", "x")]).idOf = some "x" ∧
    JSONInput.linesLoop ["\x7b\"id\":\"x\"\x7d,"] [] =
      Except.ok [Sequence.fromJson [("id", "x")]] := by
  refine ⟨fun line => rfl, fun line h => ?_, rfl, rfl, rfl⟩
  unfold jsonLineParse
  rw [h]
  rfl

/-- Witness for C4 amended: a line of whitespace and brackets empties
under the trim and is rejected by the parser. -/
theorem json_line_trim_amended_witness :
    jsonLineParse " ]]] " = Except.error "Expecting value" :=
  json_line_trim_amended.2.1 " ]]] " rfl

/-- C5 counterexample: the claim says exactly one logical connection
is established and reused, and no accessor establishes a second one.
On an instance with an explicit two-collection list, one run of the
eager accessor from a fresh state establishes two connections: the db
property is read once per queried collection and opens a new
connection each time. -/
theorem mongo_two_connections :
    (MongoDBInput.as_list envFile mongoTwoColls ⟨0, none⟩).2.conns = 2 := rfl

/-- C5 amended: the connection is established lazily (none exists
before an accessor runs), but it is not reused: every read of the db
property opens a fresh connection, so one run of either accessor
establishes one connection per resolved collection, plus one more for
collection listing when the specification is absent. -/
theorem mongo_connections_amended (env : Env) :
    (∀ (inst : MongoDBInput) (st : MongoState),
      (inst.db st).2.conns = st.conns + 1) ∧
    (∀ (inst : MongoDBInput) (n : Nat),
      (MongoDBInput.as_list env inst ⟨n, none⟩).2.conns =
        (MongoDBInput.collections env inst ⟨n, none⟩).2.conns +
          (MongoDBInput.collections env inst ⟨n, none⟩).1.length) ∧
    (∀ (inst : MongoDBInput) (st : MongoState),
      (MongoDBInput.as_generator env inst st).2.conns =
        (MongoDBInput.collections env inst st).2.conns +
          (MongoDBInput.collections env inst st).1.length) ∧
    (∀ (inst : MongoDBInput) (n : Nat),
      (MongoDBInput.collections env inst ⟨n, none⟩).2.conns =
        n + (match inst.raw_collections with | CollInput.absent => 1 | _ => 0)) := by
  refine ⟨fun inst st => rfl, fun inst n => ?_, fun inst st => ?_, fun inst n => ?_⟩
  · simp [MongoDBInput.as_list, MongoDBInput.as_list_compute, mongo_collLoop_eq,
      mongo_genColls_conns]
  · simp [MongoDBInput.as_generator, mongo_genColls_conns]
  · cases h : inst.raw_collections <;>
      simp [MongoDBInput.collections, MongoDBInput.db, h]

/-- C6: for every variant over a stable underlying source, the value
of the eager accessor (computed from a fresh store) equals one full
consumption of the lazy accessor, started from any instance state:
the same records in the same order, and in the JSON case the same
error when the source is malformed. -/
theorem as_list_eq_as_generator (env : Env) :
    (∀ (fi : FASTAInput) (r : Nat) (st : FASTAState),
      (FASTAInput.as_list env fi ⟨r, none⟩).1 = (FASTAInput.as_generator env fi st).1) ∧
    (∀ (ji : JSONInput) (r : Nat) (st : JSONState),
      (JSONInput.as_list env ji ⟨r, none⟩).1 = (JSONInput.as_generator env ji st).1) ∧
    (∀ (mi : MongoDBInput) (n : Nat) (st : MongoState),
      (MongoDBInput.as_list env mi ⟨n, none⟩).1 =
        (MongoDBInput.as_generator env mi st).1) := by
  refine ⟨fun fi r st => ?_, fun ji r st => ?_, fun mi n st => ?_⟩
  · simp [FASTAInput.as_list, FASTAInput.as_list_compute, FASTAInput.as_generator,
      fasta_filesLoop_eq, fasta_genFiles_fst env (fi.files env) r st.reads]
  · simp only [JSONInput.as_list, JSONInput.as_list_compute, JSONInput.as_generator,
      json_filesLoop_eq]
    rw [json_genFiles_fst env (ji.files env) r st.reads]
    cases (JSONInput.genFiles env (ji.files env) st.reads).1 with
    | error e => simp [Except.map]
    | ok v => simp [Except.map]
  · simp only [MongoDBInput.as_list, MongoDBInput.as_list_compute,
      MongoDBInput.as_generator, mongo_collLoop_eq]
    rw [mongo_collections_fst env mi ⟨n, none⟩ st]
    simp [mongo_genColls_fst env mi ((MongoDBInput.collections env mi st).1)
      (MongoDBInput.collections env mi ⟨n, none⟩).2
      (MongoDBInput.collections env mi st).2]

/-- C7: for every variant, the lazy accessor is restartable: its full
consumption yields the same record sequence from any two instance
states, so separate calls agree no matter whether an earlier sequence
was partially consumed or the eager accessor was ever called. -/
theorem as_generator_restartable (env : Env) :
    (∀ (fi : FASTAInput) (st1 st2 : FASTAState),
      (FASTAInput.as_generator env fi st1).1 = (FASTAInput.as_generator env fi st2).1) ∧
    (∀ (ji : JSONInput) (st1 st2 : JSONState),
      (JSONInput.as_generator env ji st1).1 = (JSONInput.as_generator env ji st2).1) ∧
    (∀ (mi : MongoDBInput) (st1 st2 : MongoState),
      (MongoDBInput.as_generator env mi st1).1 =
        (MongoDBInput.as_generator env mi st2).1) := by
  refine ⟨fun fi st1 st2 => ?_, fun ji st1 st2 => ?_, fun mi st1 st2 => ?_⟩
  · simp [FASTAInput.as_generator, fasta_genFiles_fst env (fi.files env) st1.reads st2.reads]
  · simp [JSONInput.as_generator, json_genFiles_fst env (ji.files env) st1.reads st2.reads]
  · simp only [MongoDBInput.as_generator]
    rw [mongo_collections_fst env mi st1 st2]
    exact mongo_genColls_fst env mi ((MongoDBInput.collections env mi st2).1)
      (MongoDBInput.collections env mi st1).2 (MongoDBInput.collections env mi st2).2

/-- C8: for both file-based variants, a string descriptor naming a
directory resolves through the external lister with the json extension
(also in the FASTA variant), any other string resolves to the
one-element list holding exactly that path, and an explicit path list
passes through unchanged. -/
theorem files_resolution (env : Env) (p : String) (ps : List String) :
    (env.isdir p = true →
      FASTAInput.files env ⟨FileInput.path p⟩ = env.list_files p "json" ∧
      JSONInput.files env ⟨FileInput.path p⟩ = env.list_files p "json") ∧
    (env.isdir p = false →
      FASTAInput.files env ⟨FileInput.path p⟩ = [p] ∧
      JSONInput.files env ⟨FileInput.path p⟩ = [p]) ∧
    (FASTAInput.files env ⟨FileInput.paths ps⟩ = ps ∧
      JSONInput.files env ⟨FileInput.paths ps⟩ = ps) := by
  refine ⟨fun h => ?_, fun h => ?_, rfl, rfl⟩
  · constructor <;> simp [FASTAInput.files, JSONInput.files, h]
  · constructor <;> simp [FASTAInput.files, JSONInput.files, h]

/-- Witness for C8: the directory case on the concrete directory
source and the single-file case on the concrete file source. -/
theorem files_resolution_witness :
    (FASTAInput.files envDir ⟨FileInput.path "d"⟩ = envDir.list_files "d" "json" ∧
      JSONInput.files envDir ⟨FileInput.path "d"⟩ = envDir.list_files "d" "json") ∧
    (FASTAInput.files envFile ⟨FileInput.path "f.fasta"⟩ = ["f.fasta"] ∧
      JSONInput.files envFile ⟨FileInput.path "f.fasta"⟩ = ["f.fasta"]) :=
  ⟨(files_resolution envDir "d" []).1 rfl,
   (files_resolution envFile "f.fasta" []).2.1 rfl⟩

/-- C9: the collections accessor and the private resolver implement
the same single resolution algorithm: the accessor applied to the
stored specification equals the resolver applied to it, and the
resolver maps a single name to the one-element list, an absent
specification to the database's collection listing (through a db
handle), and an explicit list to itself. -/
theorem collections_resolution (env : Env) (inst : MongoDBInput) (st : MongoState) :
    MongoDBInput.collections env inst st =
      MongoDBInput.process_collections env inst inst.raw_collections st ∧
    (∀ (s : String),
      MongoDBInput.process_collections env inst (CollInput.name s) st = ([s], st)) ∧
    MongoDBInput.process_collections env inst CollInput.absent st =
      (env.get_collections (inst.db st).1, (inst.db st).2) ∧
    (∀ (l : List String),
      MongoDBInput.process_collections env inst (CollInput.names l) st = (l, st)) := by
  refine ⟨?_, fun s => rfl, rfl, fun l => rfl⟩
  cases h : inst.raw_collections <;>
    simp [MongoDBInput.collections, MongoDBInput.process_collections, h]

/-- C10: a file-based descriptor naming a directory with zero matching
files yields the empty record sequence from both accessors, in both
file-based variants, and no error. -/
theorem empty_directory_yields_empty (env : Env) (d : String) (r : Nat)
    (st : FASTAState) (jst : JSONState)
    (hdir : env.isdir d = true) (hempty : env.list_files d "json" = []) :
    (FASTAInput.as_list env ⟨FileInput.path d⟩ ⟨r, none⟩).1 = [] ∧
    (FASTAInput.as_generator env ⟨FileInput.path d⟩ st).1 = [] ∧
    (JSONInput.as_list env ⟨FileInput.path d⟩ ⟨r, none⟩).1 = Except.ok [] ∧
    (JSONInput.as_generator env ⟨FileInput.path d⟩ jst).1 = Except.ok [] := by
  refine ⟨?_, ?_, ?_, ?_⟩ <;>
    simp [FASTAInput.as_list, FASTAInput.as_list_compute, FASTAInput.as_generator,
      FASTAInput.files, FASTAInput.filesLoop, FASTAInput.genFiles,
      JSONInput.as_list, JSONInput.as_list_compute, JSONInput.as_generator,
      JSONInput.files, JSONInput.filesLoop, JSONInput.genFiles, hdir, hempty]

/-- Witness for C10: the concrete empty-directory source. -/
theorem empty_directory_yields_empty_witness :
    (FASTAInput.as_list envEmptyDir ⟨FileInput.path "d"⟩ ⟨0, none⟩).1 = [] ∧
    (FASTAInput.as_generator envEmptyDir ⟨FileInput.path "d"⟩ ⟨0, none⟩).1 = [] ∧
    (JSONInput.as_list envEmptyDir ⟨FileInput.path "d"⟩ ⟨0, none⟩).1 = Except.ok [] ∧
    (JSONInput.as_generator envEmptyDir ⟨FileInput.path "d"⟩ ⟨0, none⟩).1 = Except.ok [] :=
  empty_directory_yields_empty envEmptyDir "d" 0 ⟨0, none⟩ ⟨0, none⟩ rfl rfl

end AbutilsInputs
